import Mathlib

/-!
Verification of the `python_parser` repository.

Shallow embedding conventions:
* A Python dotted name `"a.b.c"` is represented by its segment list
  `["a", "b", "c"]` (`QName`).  Under this representation
  `s.split('.')` is the identity, `'.'.join` is the identity,
  `'.' in s` is `2 ≤ length`, `s + '.' + t` is `++`, and the slice
  `s.split('.')[:-k]` is `pySliceNeg` below (note Python's `l[:-0] = []`).
* A file name such as `b.py` is represented by a `stem`/`ext` pair;
  `file.endswith('.py')` is `ext = "py"` and `file.split('.')[0]` is
  `stem` (the source itself only supports file names with one dot).
* Python dictionaries are association lists; assignment `d[k] = v` is
  `dictSet`, `d.pop(k)` is `dictPop`, `k in d` / `d[k]` is `lookup?`.
  An unchecked `d[k]` access that can raise `KeyError`, and any other
  raised exception, is modelled by `Except.error ()`.
* Python object identity of tokens is represented by the global id
  `gid`: the store `NS.store` is the `rel_tokens` table (id to token);
  the dict `self.tokens` maps qualified names to gids.  Mutating a
  token mutates its store entry, which is what every alias sees.
* `symtable` parsing of a file is represented by the file's `decls`
  data: the top-level children of the module table in source order.
-/

namespace PyParser

/-- Dotted qualified name, as its list of dot-separated segments. -/
abbrev QName := List String

/-- First-match association-list lookup (`d[k]` / `k in d`). -/
def lookup? {α β : Type} [DecidableEq α] : List (α × β) → α → Option β
  | [], _ => none
  | (k, v) :: rest, a => if k = a then some v else lookup? rest a

/-- Dict assignment `d[k] = v` (extensionally equal to the Python dict). -/
def dictSet {α β : Type} [DecidableEq α] (l : List (α × β)) (a : α) (b : β) :
    List (α × β) :=
  l.filter (fun p => p.1 ≠ a) ++ [(a, b)]

/-- Dict removal `d.pop(k)` (the build only pops keys that are present). -/
def dictPop {α β : Type} [DecidableEq α] (l : List (α × β)) (a : α) :
    List (α × β) :=
  l.filter (fun p => p.1 ≠ a)

/-- `tokens.py` `Relation` (also covering `Dependency`/`Association`):
source id, target id, weight, kind value string, optional stereotype. -/
structure Rel where
  src_id : Nat
  tgt_id : Nat
  weight : Nat
  rtype : String
  stereotype : Option String
deriving DecidableEq

/-- `Relation.__eq__`: compares only source id, target id and weight. -/
def Rel.releq (a b : Rel) : Bool :=
  a.src_id = b.src_id ∧ a.tgt_id = b.tgt_id ∧ a.weight = b.weight

/-- `Relation.__hash__` input: `str(src_id) + str(tgt_id) + str(weight)`
(we keep the concatenated string; Python hashes it). -/
def Rel.relhash (a : Rel) : String :=
  toString a.src_id ++ toString a.tgt_id ++ toString a.weight

/-- Python `set.add` on a relation set: a no-op when an `__eq__`-equal
element is already present. -/
def setAdd (s : List Rel) (r : Rel) : List Rel :=
  if s.any (fun x => x.releq r) then s else s ++ [r]

/-- Token kinds: `Package`, `Component`, `Class`, `Function`. -/
inductive Kind
  | pkg
  | comp
  | cls
  | func
deriving DecidableEq

/-- One token object, with the union of the fields of `tokens.py`'s
`Package`, `Component`, `Class` and `Function` (unused fields keep
their constructor defaults).  Child containers hold gids; set
membership of tokens is by qualified name (`Token.__eq__`). -/
structure Token where
  gid : Nat
  qual_name : QName
  kind : Kind
  regular_pkg : Bool := false
  declared_names : List (String × QName) := []
  imported_names : List (String × QName) := []
  classes : List Nat := []
  functions : List Nat := []
  packages : List Nat := []
  components : List Nat := []
  inst_methods : List Nat := []
  params : List String := []
  all : Option (List String) := none
  all_aliases : List (String × Option (List String)) := []
  relations : List Rel := []
deriving DecidableEq

instance : Inhabited Token :=
  ⟨{ gid := 0, qual_name := [], kind := Kind.pkg }⟩

/-- `ProjectNameSpace` state: gid counter, the `rel_tokens` id table
(`store`, which doubles as the object heap) and the qualified-name
table `tokens` (qual name to gid). -/
structure NS where
  gid : Nat
  store : List (Nat × Token)
  tokens : List (QName × Nat)
  root_comp : Option Nat := none
  dependencies : List Rel := []
  associations : List Rel := []
deriving DecidableEq

/-- Dereference a gid in the store (callers only use gids they created). -/
def NS.getTok (ns : NS) (g : Nat) : Token :=
  (lookup? ns.store g).getD default

/-- Mutate the token object with gid `g`. -/
def NS.setTok (ns : NS) (g : Nat) (t : Token) : NS :=
  { ns with store := dictSet ns.store g t }

/-- `utils.qual_name_from_path`: path separators become dots and the
file keeps only its stem. -/
def qual_name_from_path (path : QName) (file : Option String) : QName :=
  match file with
  | none => path
  | some stem => path ++ [stem]

/-- `ProjectNameSpace._make_package`. -/
def make_package (ns : NS) (path : QName) : NS × Nat :=
  let qn := qual_name_from_path path none
  let pkg : Token := { gid := ns.gid, qual_name := qn, kind := Kind.pkg }
  ({ ns with store := dictSet ns.store ns.gid pkg,
             tokens := dictSet ns.tokens qn ns.gid,
             gid := ns.gid + 1 }, ns.gid)

/-- `ProjectNameSpace._make_component`. -/
def make_component (ns : NS) (path : QName) (file : Option String) :
    NS × Nat :=
  let qn := qual_name_from_path path file
  let comp : Token := { gid := ns.gid, qual_name := qn, kind := Kind.comp,
                        regular_pkg := file.isNone }
  ({ ns with store := dictSet ns.store ns.gid comp,
             tokens := dictSet ns.tokens qn ns.gid,
             gid := ns.gid + 1 }, ns.gid)

/-- One top-level child of a module's symbol table: a class (with its
function-type children, i.e. methods), a function (with parameters),
or a child of any other type (skipped by the source). -/
inductive Decl
  | cls (name : String) (methods : List (String × List String))
  | func (name : String) (params : List String)
  | other
deriving DecidableEq

/-- Set-insert of a token gid into a child set; `Token.__eq__` compares
qualified names, so membership is by the new token's qualified name. -/
def tokSetInsert (ns : NS) (l : List Nat) (g : Nat) (q : QName) : List Nat :=
  if l.any (fun g0 => (ns.getTok g0).qual_name = q) then l else l ++ [g]

/-- Body of the `for child in comp_table.get_children()` loop of
`ProjectNameSpace._parse_file_content`. -/
def parseDecl (ns : NS) (compGid : Nat) : Decl → NS
  | Decl.cls cname methods =>
      let comp := ns.getTok compGid
      let qual := comp.qual_name ++ [cname]
      let g := ns.gid
      let cls : Token := { gid := g, qual_name := qual, kind := Kind.cls }
      let ns1 : NS :=
        { ns with store := dictSet ns.store g cls,
                  tokens := dictSet ns.tokens qual g, gid := g + 1 }
      let ns2 := ns1.setTok compGid
        { comp with classes := tokSetInsert ns1 comp.classes g qual,
                    declared_names := dictSet comp.declared_names cname qual }
      methods.foldl (fun ns m =>
        let cls := ns.getTok g
        let mq := qual ++ [m.1]
        let mg := ns.gid
        let meth : Token := { gid := mg, qual_name := mq, kind := Kind.func,
                              params := m.2 }
        let ns1 : NS :=
          { ns with store := dictSet ns.store mg meth,
                    tokens := dictSet ns.tokens mq mg, gid := mg + 1 }
        ns1.setTok g
          { cls with
              declared_names := dictSet cls.declared_names m.1 mq,
              inst_methods := tokSetInsert ns1 cls.inst_methods mg mq }) ns2
  | Decl.func fname ps =>
      let comp := ns.getTok compGid
      let qual := comp.qual_name ++ [fname]
      let g := ns.gid
      let meth : Token := { gid := g, qual_name := qual, kind := Kind.func,
                            params := ps }
      let ns1 : NS :=
        { ns with store := dictSet ns.store g meth,
                  tokens := dictSet ns.tokens qual g, gid := g + 1 }
      ns1.setTok compGid
        { comp with functions := tokSetInsert ns1 comp.functions g qual,
                    declared_names := dictSet comp.declared_names fname qual }
  | Decl.other => ns

/-- `ProjectNameSpace._parse_file_content` (the file is already parsed
into its top-level `decls`). -/
def parse_file_content (ns : NS) (compGid : Nat) (decls : List Decl) : NS :=
  decls.foldl (fun ns d => parseDecl ns compGid d) ns

/-- A source file: stem, extension, and its parsed top-level children. -/
structure PyFile where
  stem : String
  ext : String
  decls : List Decl
deriving DecidableEq

/-- `'__init__.py' in files`. -/
def hasInit (files : List PyFile) : Bool :=
  files.any (fun f => f.stem = "__init__" ∧ f.ext = "py")

/-- Content of the directory's `__init__.py`, when present. -/
def initFileDecls (files : List PyFile) : List Decl :=
  match files.find? (fun f => f.stem = "__init__" ∧ f.ext = "py") with
  | some f => f.decls
  | none => []

/-- Does a declaration list declare at least one class or function?
(`len(comp.classes) == 0 and len(comp.functions) == 0` is its negation
for a freshly parsed component.) -/
def hasClassOrFunc (decls : List Decl) : Bool :=
  decls.any (fun d => match d with
    | Decl.cls _ _ => true
    | Decl.func _ _ => true
    | Decl.other => false)

/-- `current.components.add(comp)` on the token with gid `cur`. -/
def addToComponents (ns : NS) (cur g : Nat) (q : QName) : NS :=
  let t := ns.getTok cur
  ns.setTok cur { t with components := tokSetInsert ns t.components g q }

/-- Body of the `for file in files` loop of
`ProjectNameSpace._build_namespace` (lines 50-58): create and scan a
component per non-marker `.py` file, then either pop it from the
qualified-name table (no classes and no functions) or attach it to the
current directory token and set `has_children`. -/
def processFile (path : QName) (curGid : Nat) (acc : NS × Bool)
    (f : PyFile) : NS × Bool :=
  let ns := acc.1
  let hc := acc.2
  if f.ext = "py" ∧ ¬ f.stem = "__init__" then
    let r := make_component ns path (some f.stem)
    let ns2 := parse_file_content r.1 r.2 f.decls
    let comp := ns2.getTok r.2
    if comp.classes = [] ∧ comp.functions = [] then
      ({ ns2 with tokens := dictPop ns2.tokens comp.qual_name }, hc)
    else
      (addToComponents ns2 curGid r.2 comp.qual_name, true)
  else (ns, hc)

/-- Body of the `for sub_dir in sub_dirs` loop of
`ProjectNameSpace._build_namespace` (lines 60-70): look the child
directory's token up (a `KeyError` is swallowed by the `try`), attach
it, and set `has_children`. -/
def processSubdir (path : QName) (curGid : Nat) (acc : NS × Bool)
    (d : String) : NS × Bool :=
  let ns := acc.1
  let hc := acc.2
  match lookup? ns.tokens (qual_name_from_path (path ++ [d]) none) with
  | some g =>
      let child := ns.getTok g
      let t := ns.getTok curGid
      let ns2 :=
        if child.kind = Kind.comp then
          ns.setTok curGid
            { t with components := tokSetInsert ns t.components g child.qual_name }
        else if child.kind = Kind.pkg then
          ns.setTok curGid
            { t with packages := tokSetInsert ns t.packages g child.qual_name }
        else ns
      (ns2, true)
  | none => (ns, hc)

/-- Lines 43-47 of `_build_namespace`: a directory with a marker file
becomes a regular-package Component whose marker file is scanned;
otherwise it becomes a namespace Package. -/
def makeCurrent (ns : NS) (path : QName) (files : List PyFile) : NS × Nat :=
  if hasInit files then
    let r1 := make_component ns path none
    (parse_file_content r1.1 r1.2 (initFileDecls files), r1.2)
  else make_package ns path

/-- Lines 72-73 of `_build_namespace`: pop the current directory token
from the qualified-name table when it gathered no children. -/
def popIfChildless (acc : NS × Bool) (curGid : Nat) : NS :=
  if acc.2 then acc.1
  else { acc.1 with
           tokens := dictPop acc.1.tokens (acc.1.getTok curGid).qual_name }

/-- One iteration of the `os.walk` loop of
`ProjectNameSpace._build_namespace` (lines 42-76). -/
def processDir (rootPath : QName) (ns : NS)
    (e : QName × List String × List PyFile) : NS :=
  let path := e.1
  let subdirs := e.2.1
  let files := e.2.2
  let r := makeCurrent ns path files
  let acc1 := files.foldl (processFile path r.2) (r.1, false)
  let acc2 := subdirs.foldl (processSubdir path r.2) acc1
  let ns3 := popIfChildless acc2 r.2
  if path = rootPath then { ns3 with root_comp := some r.2 } else ns3

/-- A directory tree: name, subdirectories, files. -/
inductive FSTree
  | node (name : String) (subdirs : List FSTree) (files : List PyFile)

/-- Directory name of a tree node. -/
def FSTree.dirName : FSTree → String
  | FSTree.node n _ _ => n

mutual

/-- `os.walk(root, topdown=False)`: children first, then the directory
itself, yielding `(path, sub_dir_names, files)` triples. -/
def walkBU (path : QName) : FSTree → List (QName × List String × List PyFile)
  | FSTree.node n subs files =>
      walkBUList (path ++ [n]) subs ++
        [(path ++ [n], subs.map FSTree.dirName, files)]

/-- Walk a list of sibling subtrees in order. -/
def walkBUList (path : QName) : List FSTree →
    List (QName × List String × List PyFile)
  | [] => []
  | t :: ts => walkBU path t ++ walkBUList path ts

end

/-- The empty initial `ProjectNameSpace` state (`__init__`, lines 14-24). -/
def initNS : NS :=
  { gid := 0, store := [], tokens := [], root_comp := none,
    dependencies := [], associations := [] }

/-- `ProjectNameSpace._build_namespace`: fold the bottom-up directory
walk over the per-directory step. -/
def buildNamespace (root : FSTree) : NS :=
  (walkBU [] root).foldl (processDir [root.dirName]) initNS

/-- `NameSpace.get_qualname_of_local_name`: declared names first, then
imported names. -/
def Token.get_qualname_of_local_name (t : Token) (name : String) :
    Option QName :=
  match lookup? t.declared_names name with
  | some q => some q
  | none => lookup? t.imported_names name

/-- `ProjectNameSpace.get_parent`: `None` when the qualified name has
no dot; otherwise an unchecked `self.tokens[...]` access on the name
with its last segment stripped (`KeyError` is `.error`). -/
def NS.get_parent (ns : NS) (tok : Token) : Except Unit (Option Token) :=
  if tok.qual_name.length < 2 then Except.ok none
  else
    match lookup? ns.tokens tok.qual_name.dropLast with
    | some g => Except.ok (some (ns.getTok g))
    | none => Except.error ()

/-- The level loop of `ProjectNameSpace._find_in_token_hierarchy`,
over the list of qualified-name prefixes, longest (innermost) first.
An empty prefix is skipped; a present level of exact type `Package`
makes the whole lookup return `None`; a truthy hit is dereferenced
through `self.tokens` (unchecked access). -/
def findAtLevels (ns : NS) (name : String) :
    List QName → Except Unit (Option Token)
  | [] => Except.ok none
  | q :: rest =>
      if q = [] then findAtLevels ns name rest
      else
        match lookup? ns.tokens q with
        | none => Except.error ()
        | some g =>
            let lvl_token := ns.getTok g
            if lvl_token.kind = Kind.pkg then Except.ok none
            else
              match lvl_token.get_qualname_of_local_name name with
              | some qn =>
                  if qn = [] then findAtLevels ns name rest
                  else
                    match lookup? ns.tokens qn with
                    | some g2 => Except.ok (some (ns.getTok g2))
                    | none => Except.error ()
              | none => findAtLevels ns name rest

/-- `reversed(range(len(qual_name_list) + 1))` mapped through
`'.'.join(qual_name_list[:lvl])`: all prefixes, longest first. -/
def prefixesDesc (q : QName) : List QName :=
  ((List.range (q.length + 1)).reverse).map (fun l => q.take l)

/-- `ProjectNameSpace._find_in_token_hierarchy`. -/
def find_in_token_hierarchy (ns : NS) (tok : Token) (name : String) :
    Except Unit (Option Token) :=
  findAtLevels ns name (prefixesDesc tok.qual_name)

/-- `ProjectNameSpace.get_token_of_local_name`: a dotted name with
exactly two segments resolves its first segment to a component and
looks the second up there; a bare name is looked up directly; any
other shape falls through to `None`. -/
def get_token_of_local_name (ns : NS) (tok : Token) (name : List String) :
    Except Unit (Option Token) :=
  if 2 ≤ name.length then
    if name.length = 2 then
      match find_in_token_hierarchy ns tok (name.getD 0 "") with
      | Except.ok (some comp) =>
          find_in_token_hierarchy ns comp (name.getD 1 "")
      | Except.ok none => Except.ok none
      | Except.error e => Except.error e
    else Except.ok none
  else find_in_token_hierarchy ns tok (name.headD "")

/-- `Dependency(src, tgt, DepenType.USES)` with default weight 0 and
no stereotype. -/
def mkUses (s t : Nat) : Rel :=
  { src_id := s, tgt_id := t, weight := 0, rtype := "uses",
    stereotype := none }

/-- The mutation performed by `_bubble_relation` when the two current
endpoints share a parent: create a plain `USES` dependency between the
current endpoints, add it to the global dependency set, and add it to
the relation set of the token `self.tokens[src_parent.qual_name]`. -/
def addCondensed (ns : NS) (src trgt : Token) (parentQual : QName) :
    Except Unit NS :=
  let dep : Rel := mkUses src.gid trgt.gid
  let ns1 := { ns with dependencies := setAdd ns.dependencies dep }
  match lookup? ns1.tokens parentQual with
  | some g =>
      let t := ns1.getTok g
      Except.ok (ns1.setTok g { t with relations := setAdd t.relations dep })
  | none => Except.error ()

/-- `ProjectNameSpace._bubble_relation`, with explicit fuel standing
for the call stack (the Python recursion is untracked; every theorem
supplies enough fuel). -/
def bubble (ns : NS) : Nat → Token → Token → Except Unit NS
  | 0, _, _ => Except.error ()
  | fuel + 1, src, trgt =>
      match ns.get_parent src with
      | Except.error e => Except.error e
      | Except.ok srcPar =>
          match ns.get_parent trgt with
          | Except.error e => Except.error e
          | Except.ok trgtPar =>
              match srcPar, trgtPar with
              | some sp, some tp =>
                  if sp.qual_name = tp.qual_name then
                    addCondensed ns src trgt sp.qual_name
                  else bubble ns fuel sp tp
              | _, _ => Except.ok ns

/-- Python set union `self.dependencies | self.associations` as the
iteration snapshot of `condense_relations` (membership by `__eq__`). -/
def unionRels (a b : List Rel) : List Rel :=
  b.foldl setAdd a

/-- The loop of `ProjectNameSpace.condense_relations` over a fixed
snapshot of relations: dereference both endpoints through `rel_tokens`
and bubble them up. -/
def condenseGo (fuel : Nat) : List Rel → NS → Except Unit NS
  | [], ns => Except.ok ns
  | r :: rest, ns =>
      match lookup? ns.store r.src_id, lookup? ns.store r.tgt_id with
      | some s, some t =>
          match bubble ns fuel s t with
          | Except.ok ns2 => condenseGo fuel rest ns2
          | Except.error e => Except.error e
      | _, _ => Except.error ()

/-- `ProjectNameSpace.condense_relations`. -/
def condense_relations (fuel : Nat) (ns : NS) : Except Unit NS :=
  condenseGo fuel (unionRels ns.dependencies ns.associations) ns

/-- Python `l[:-k]` for `k` a non-negative literal: note `l[:-0]` is
the empty list, not `l`. -/
def pySliceNeg (l : QName) (k : Nat) : QName :=
  if k = 0 then [] else l.take (l.length - k)

/-- `IndeterministicParser._build_qualified_from_name`: `comp` is
`self.current_comp`, `module`/`level` come from the `ast.ImportFrom`
node (`module` is its dotted path, already in segments). -/
def build_qualified_from_name (comp : Token) (module : Option QName)
    (level : Nat) : QName :=
  let qual := comp.qual_name
  match module with
  | none => pySliceNeg qual level
  | some m =>
      if level = 0 then m
      else if comp.regular_pkg then qual ++ m
      else pySliceNeg qual level ++ m

/-- `current_token.imported_names[name] = qual` on the token `cur`. -/
def setImported (ns : NS) (cur : Nat) (name : String) (qual : QName) : NS :=
  let t := ns.getTok cur
  ns.setTok cur { t with imported_names := dictSet t.imported_names name qual }

/-- The non-wildcard branch of `ImportParser.visit_ImportFrom` for one
`alias` (source lines 261-276), returning the new state and the
unresolved-node increment.  The source checks `alias.name in names`
but then reads `names[name]` with the local alias `name`, an unchecked
dict access. -/
def importFromAlias (ns : NS) (cur : Nat) (from_mod : QName)
    (aliasName : String) (asname : Option String) :
    Except Unit (NS × Nat) :=
  let name := asname.getD aliasName
  let qual_name := from_mod ++ [aliasName]
  match lookup? ns.tokens qual_name with
  | some _ => Except.ok (setImported ns cur name qual_name, 0)
  | none =>
      match lookup? ns.tokens from_mod with
      | some g =>
          let names := (ns.getTok g).imported_names
          if (lookup? names aliasName).isSome then
            match lookup? names name with
            | some v => Except.ok (setImported ns cur name v, 0)
            | none => Except.error ()
          else Except.ok (ns, 1)
      | none => Except.ok (ns, 0)

/-- Expressions visited by `AllParser` (`ast` nodes): literal
list/tuple of string constants, bare name, binary operation, anything
else (a node type `AllParser` defines no visitor for). -/
inductive PExpr
  | lst (elts : List String)
  | name (id : String)
  | binop (isAdd : Bool) (l r : PExpr)
  | otherE
deriving DecidableEq

/-- The Python value returned by `AllParser.visit` on an expression:
`None`, a string, or a tuple pair. -/
inductive PVal
  | vnone
  | vstr (s : String)
  | vpair (a b : PVal)
deriving DecidableEq

/-- `AllParser.visit` dispatch on an expression: `visit_Name` returns
the id, `visit_BinOp` returns the pair of sub-visits for `Add` (and
`None` otherwise), every other node falls to `generic_visit`, which
returns `None`. -/
def allVisit : PExpr → PVal
  | PExpr.name s => PVal.vstr s
  | PExpr.binop true l r => PVal.vpair (allVisit l) (allVisit r)
  | PExpr.binop false _ _ => PVal.vnone
  | PExpr.lst _ => PVal.vnone
  | PExpr.otherE => PVal.vnone

/-- `AllParser._flatten_nested_tuple` element step: a non-tuple element
is kept (a string as itself, `None` as `none`), a nested tuple is
flattened recursively. -/
def flattenElem : PVal → List (Option String)
  | PVal.vnone => [none]
  | PVal.vstr s => [some s]
  | PVal.vpair a b => flattenElem a ++ flattenElem b

/-- `AllParser.visit_Assign` for one `ast.Name` target (the source
loops over `node.targets`; `cur` is the current token's gid).  The
alias loop reads `self.current_token.all_aliases[alias]`, an unchecked
dict access whose key can be `None` when an operand of the
concatenation is not a bare name; `all_aliases` only ever receives
string keys, so such an access raises (`.error`).  Truthiness of the
looked-up list and of `current.all` follows Python (`None` and `[]`
are falsy). -/
def allVisitAssign (ns : NS) (cur : Nat) (cnt : Nat) (targetId : String)
    (value : PExpr) : Except Unit (NS × Nat) :=
  if targetId = "__all__" then
    match value with
    | PExpr.lst elts =>
        let t := ns.getTok cur
        Except.ok (ns.setTok cur { t with all := some elts }, cnt)
    | PExpr.binop i l r =>
        match allVisit (PExpr.binop i l r) with
        | PVal.vpair a b =>
            (flattenElem a ++ flattenElem b).foldlM
              (fun (acc : NS × Nat) al =>
                match al with
                | none => Except.error ()
                | some s =>
                    let t := acc.1.getTok cur
                    match lookup? t.all_aliases s with
                    | none => Except.error ()
                    | some v =>
                        match v with
                        | some (x :: xs) =>
                            let newAll :=
                              match t.all with
                              | some (y :: ys) => some ((y :: ys) ++ (x :: xs))
                              | _ => some (x :: xs)
                            Except.ok
                              (acc.1.setTok cur { t with all := newAll }, acc.2)
                        | _ => Except.ok (acc.1, acc.2 + 1))
              (ns, cnt)
        | _ => Except.error ()
    | _ => Except.ok (ns, cnt)
  else Except.ok (ns, cnt)

/-- `AllParser.visit_ImportFrom` for one alias: only `__all__` imports
are recorded; the source token is an unchecked
`self.ns.tokens[from_mod]` access, and the imported export list (the
current value of the source's `all`) is stored in `all_aliases` under
the local alias. -/
def allVisitImportFrom (ns : NS) (cur : Nat) (module : Option QName)
    (level : Nat) (aliasName : String) (asname : Option String) :
    Except Unit NS :=
  if aliasName = "__all__" then
    let from_mod := build_qualified_from_name (ns.getTok cur) module level
    match lookup? ns.tokens from_mod with
    | some g =>
        let t := ns.getTok cur
        let key := asname.getD aliasName
        Except.ok (ns.setTok cur
          { t with all_aliases := dictSet t.all_aliases key
                     ((ns.getTok g).all) })
    | none => Except.error ()
  else Except.ok ns

/-- `AllParser.visit_AugAssign`: only `__all__ += <literal list/tuple>`
is handled; a truthy current export list is extended, otherwise the
list is set to the literal and the unresolved-node counter is
incremented. -/
def allVisitAugAssign (ns : NS) (cur : Nat) (cnt : Nat)
    (target : Option String) (isAdd : Bool) (value : PExpr) : NS × Nat :=
  match target with
  | some tid =>
      if tid = "__all__" then
        match isAdd, value with
        | true, PExpr.lst elts =>
            let t := ns.getTok cur
            match t.all with
            | some (x :: xs) =>
                (ns.setTok cur { t with all := some ((x :: xs) ++ elts) }, cnt)
            | _ => (ns.setTok cur { t with all := some elts }, cnt + 1)
        | _, _ => (ns, cnt)
      else (ns, cnt)
  | none => (ns, cnt)

/-- The statements `AllParser` reacts to while visiting one module's
tree: a from-import (with its alias list), an assignment (targets are
`ast.Name` ids, `none` for a non-`Name` target), and an augmented
assignment. -/
inductive PStmt
  | importFrom (module : Option QName) (level : Nat)
      (names : List (String × Option String))
  | assign (targets : List (Option String)) (value : PExpr)
  | augAssign (target : Option String) (isAdd : Bool) (value : PExpr)
deriving DecidableEq

/-- Dispatch of `AllParser` on one statement of the module with gid
`cur`, threading the state and the unresolved-node counter. -/
def allRunStmt (cur : Nat) (acc : NS × Nat) : PStmt → Except Unit (NS × Nat)
  | PStmt.importFrom m lvl names =>
      names.foldlM (fun (acc : NS × Nat) al => do
        let ns2 ← allVisitImportFrom acc.1 cur m lvl al.1 al.2
        pure (ns2, acc.2)) acc
  | PStmt.assign targets v =>
      targets.foldlM (fun (acc : NS × Nat) t =>
        match t with
        | some tid => allVisitAssign acc.1 cur acc.2 tid v
        | none => pure acc) acc
  | PStmt.augAssign t isAdd v =>
      pure (allVisitAugAssign acc.1 cur acc.2 t isAdd v)

/-- `AllParser` visiting one module: its statements in visit order. -/
def allRunModule (acc : NS × Nat) (m : Nat × List PStmt) :
    Except Unit (NS × Nat) :=
  m.2.foldlM (allRunStmt m.1) acc

/-- One full traversal of the export resolver: `walk_dir_tree` opens
every module of the project (a project is the walk's enumeration of
module gids with their visited statements) and `AllParser` visits it;
the traversal returns the new state and its unresolved-node count, or
propagates the first raised exception. -/
def allParserPass (proj : List (Nat × List PStmt)) (ns : NS) :
    Except Unit (NS × Nat) :=
  proj.foldlM allRunModule (ns, 0)

/-- `IndeterministicParser.run`: repeat the full traversal `f` (which
returns the new state and that traversal's unresolved-node count)
until the count equals the previous one; the previous count starts at
0.  Fuel bounds the number of traversals; `none` means the loop has
not yet terminated within the fuel. -/
def runLoop {S : Type} (f : S → S × Nat) : Nat → S → Nat → Option (S × Nat)
  | 0, _, _ => none
  | fuel + 1, s, prev =>
      let r := f s
      if r.2 = prev then some r
      else runLoop f fuel r.1 r.2

/-- `IndeterministicParser.run` for a traversal that can raise: an
exception aborts the loop (Python propagates it out of `run`);
`ok none` means the loop is still running when the fuel ends. -/
def runLoopE {S : Type} (f : S → Except Unit (S × Nat)) :
    Nat → S → Nat → Except Unit (Option (S × Nat))
  | 0, _, _ => Except.ok none
  | fuel + 1, s, prev =>
      match f s with
      | Except.error e => Except.error e
      | Except.ok r =>
          if r.2 = prev then Except.ok (some r)
          else runLoopE f fuel r.1 r.2

/-- State after `n` full traversals. -/
def passState {S : Type} (f : S → S × Nat) (s0 : S) : Nat → S
  | 0 => s0
  | n + 1 => (f (passState f s0 n)).1

/-- `cSeq f s0 0 = 0` is the initial `prev_unresolved_nodes`;
`cSeq f s0 n` for `n ≥ 1` is the unresolved count of traversal `n`. -/
def cSeq {S : Type} (f : S → S × Nat) (s0 : S) : Nat → Nat
  | 0 => 0
  | n + 1 => (f (passState f s0 n)).2

/-! ### Concrete fixtures -/

/-- A project whose root directory `a` holds an empty `__init__.py`
and a module `b.py` declaring one function `f`. -/
def fsRegularKept : FSTree :=
  FSTree.node "a" []
    [{ stem := "__init__", ext := "py", decls := [] },
     { stem := "b", ext := "py", decls := [Decl.func "f" []] }]

/-- A project whose root directory `r` holds a single regular package
`a` whose `__init__.py` declares class `C`, and nothing else. -/
def fsDanglingClass : FSTree :=
  FSTree.node "r"
    [FSTree.node "a" [] [{ stem := "__init__", ext := "py",
                           decls := [Decl.cls "C" []] }]]
    []

/-- Namespace with component `a` declaring `x`, namespace package
`a.sub`, and module `a.sub.m`: the shape in which an ancestor above a
namespace package declares the searched name. -/
def nsPkgStop : NS :=
  { gid := 4,
    store :=
      [(0, { gid := 0, qual_name := ["a"], kind := Kind.comp,
             regular_pkg := true,
             declared_names := [("x", ["a", "x"])] }),
       (1, { gid := 1, qual_name := ["a", "sub"], kind := Kind.pkg }),
       (2, { gid := 2, qual_name := ["a", "sub", "m"], kind := Kind.comp }),
       (3, { gid := 3, qual_name := ["a", "x"], kind := Kind.func })],
    tokens := [(["a"], 0), (["a", "sub"], 1), (["a", "sub", "m"], 2),
               (["a", "x"], 3)] }

/-- Namespace for the from-import forwarding bug: component `p` has
already resolved `foo` in its import table, `p.foo` is not a declared
entity, and component `m` performs `from p import foo as bar`. -/
def nsForward : NS :=
  { gid := 2,
    store :=
      [(0, { gid := 0, qual_name := ["p"], kind := Kind.comp,
             imported_names := [("foo", ["q", "foo"])] }),
       (1, { gid := 1, qual_name := ["m"], kind := Kind.comp })],
    tokens := [(["p"], 0), (["m"], 1)] }

/-- Namespace with module `m` containing function `f` and a recursive
call dependency of `f` on itself. -/
def nsSelfLoop : NS :=
  { gid := 2,
    store :=
      [(0, { gid := 0, qual_name := ["m"], kind := Kind.comp }),
       (1, { gid := 1, qual_name := ["m", "f"], kind := Kind.func })],
    tokens := [(["m"], 0), (["m", "f"], 1)],
    dependencies := [{ src_id := 1, tgt_id := 1, weight := 0,
                       rtype := "uses", stereotype := some "calls" }] }

/-- The state `condense_relations` produces from `nsSelfLoop`. -/
def nsSelfLoopCondensed : NS :=
  { gid := 2,
    store :=
      [(1, { gid := 1, qual_name := ["m", "f"], kind := Kind.func }),
       (0, { gid := 0, qual_name := ["m"], kind := Kind.comp,
             relations := [mkUses 1 1] })],
    tokens := [(["m"], 0), (["m", "f"], 1)],
    dependencies := [{ src_id := 1, tgt_id := 1, weight := 0,
                       rtype := "uses", stereotype := some "calls" }] }

/-- Namespace for the export-concatenation scenario: modules
`proj.other` (gid 0) and `proj.m` (gid 1). -/
def nsExportScenario : NS :=
  { gid := 2,
    store :=
      [(0, { gid := 0, qual_name := ["proj", "other"], kind := Kind.comp }),
       (1, { gid := 1, qual_name := ["proj", "m"], kind := Kind.comp })],
    tokens := [(["proj", "other"], 0), (["proj", "m"], 1)] }

/-- The export-concatenation scenario run, pass 1: `other` assigns
`__all__ = ['Y']`, then `m` executes `from .other import __all__ as
other_all` followed by `__all__ = ['X'] + other_all`. -/
def exportScenarioRun : Except Unit (NS × Nat) := do
  let r1 ← allVisitAssign nsExportScenario 0 0 "__all__" (PExpr.lst ["Y"])
  let ns2 ← allVisitImportFrom r1.1 1 (some ["other"]) 1 "__all__"
              (some "other_all")
  allVisitAssign ns2 1 r1.2 "__all__"
    (PExpr.binop true (PExpr.lst ["X"]) (PExpr.name "other_all"))

/-- The export-concatenation project as the export resolver's
traversal sees it: module `proj.other` (gid 0) with `__all__ = ['Y']`,
then module `proj.m` (gid 1) with `from .other import __all__ as
other_all` and `__all__ = ['X'] + other_all`.  Its reference graph is
acyclic with longest chain 2. -/
def exportProject : List (Nat × List PStmt) :=
  [(0, [PStmt.assign [some "__all__"] (PExpr.lst ["Y"])]),
   (1, [PStmt.importFrom (some ["other"]) 1 [("__all__", some "other_all")],
        PStmt.assign [some "__all__"]
          (PExpr.binop true (PExpr.lst ["X"]) (PExpr.name "other_all"))])]

/-- A hierarchy level that neither hits nor stops the walk of
`_find_in_token_hierarchy`: the empty prefix (skipped by the
`if lvl_qual_name` guard), or a present non-`Package` level whose
declared/imported tables yield nothing truthy for the name. -/
def NoHitLevel (ns : NS) (name : String) (p : QName) : Prop :=
  p = [] ∨
    ∃ g, lookup? ns.tokens p = some g ∧
      ¬ (ns.getTok g).kind = Kind.pkg ∧
      ((ns.getTok g).get_qualname_of_local_name name = none ∨
       (ns.getTok g).get_qualname_of_local_name name = some [])

/-- `y`'s id-to-token table holds every gid `x`'s holds. -/
def storePres (x y : NS) : Prop :=
  ∀ g, (lookup? x.store g).isSome → (lookup? y.store g).isSome

/-- Well-formed namespace state: every id-table entry records its own
gid, and every qualified-name-table entry points at an id-table entry
carrying that qualified name. -/
def WF (ns : NS) : Prop :=
  (∀ g t, lookup? ns.store g = some t → t.gid = g) ∧
  (∀ q g, lookup? ns.tokens q = some g →
     ∃ t, lookup? ns.store g = some t ∧ t.qual_name = q)

/-- The parent relation of `get_parent`, on gids: strip the last
segment of the token's qualified name and look it up. -/
def parentStep (ns : NS) (g : Nat) : Option Nat :=
  if (ns.getTok g).qual_name.length < 2 then none
  else lookup? ns.tokens (ns.getTok g).qual_name.dropLast

/-- `n`-fold iteration of `parentStep`. -/
def parentIterN (ns : NS) : Nat → Nat → Option Nat
  | 0, g => some g
  | n + 1, g =>
      match parentStep ns g with
      | some g2 => parentIterN ns n g2
      | none => none

/-- `r` is a condensed relation stemming from the fine-grained
relation `r0`: its endpoints are the two endpoints of `r0` ascended
the same number of parent steps, they share a parent, the created edge
is a plain `USES` dependency of weight 0, and its endpoints are
distinct unless `r0` was itself a self-loop. -/
def condensedFrom (ns : NS) (r0 r : Rel) : Prop :=
  ∃ n sg tg pg,
    parentIterN ns n r0.src_id = some sg ∧
    parentIterN ns n r0.tgt_id = some tg ∧
    r = mkUses sg tg ∧
    parentStep ns sg = some pg ∧ parentStep ns tg = some pg ∧
    (¬ sg = tg ∨ r0.src_id = r0.tgt_id)

/-- Relation between a state and a later state of the condenser: the
qualified-name table and the associations are untouched, no dependency
and no attached relation is lost, every id-table entry survives with
the same identity fields, no id appears, and every new dependency or
newly attached relation satisfies `P`. -/
def condenseStep (x y : NS) (P : Rel → Prop) : Prop :=
  y.tokens = x.tokens ∧
  y.associations = x.associations ∧
  (∀ r ∈ x.dependencies, r ∈ y.dependencies) ∧
  (∀ r ∈ y.dependencies, r ∈ x.dependencies ∨ P r) ∧
  (∀ g t, lookup? x.store g = some t → ∃ t2,
     lookup? y.store g = some t2 ∧ t2.gid = t.gid ∧
     t2.qual_name = t.qual_name ∧ t2.kind = t.kind ∧
     (∀ r ∈ t.relations, r ∈ t2.relations) ∧
     (∀ r ∈ t2.relations, r ∈ t.relations ∨ P r)) ∧
  (∀ g, (lookup? y.store g).isSome → (lookup? x.store g).isSome)

/-! ### Claim theorems -/

theorem lookup?_append {α β : Type} [DecidableEq α]
    (xs ys : List (α × β)) (c : α) :
    lookup? (xs ++ ys) c =
      match lookup? xs c with
      | some v => some v
      | none => lookup? ys c := by
  induction xs with
  | nil => simp [lookup?]
  | cons p rest ih =>
      by_cases hpc : p.1 = c
      · simp [lookup?, hpc]
      · simp [lookup?, hpc, ih]

theorem lookup?_filterNe {α β : Type} [DecidableEq α]
    (l : List (α × β)) (a c : α) :
    lookup? (l.filter (fun p => p.1 ≠ a)) c =
      if c = a then none else lookup? l c := by
  induction l with
  | nil => simp [lookup?]
  | cons p rest ih =>
      by_cases hpa : p.1 = a
      · have hpc : p.1 = c → c = a := fun h => by rw [← h, hpa]
        by_cases hca : c = a
        · simpa [List.filter, hpa, hca] using by simpa [hca] using ih
        · have hpc2 : ¬ p.1 = c := fun h => hca (hpc h)
          have hac : ¬ a = c := fun h => hca h.symm
          simpa [List.filter, hpa, lookup?, hpc2, hca, hac] using by
            simpa [hca] using ih
      · by_cases hpc : p.1 = c
        · have hca : ¬ c = a := fun h => hpa (by rw [hpc, h])
          simp [List.filter, hpa, lookup?, hpc, hca]
        · simpa [List.filter, hpa, lookup?, hpc] using ih

theorem lookup?_dictSet {α β : Type} [DecidableEq α]
    (l : List (α × β)) (a c : α) (b : β) :
    lookup? (dictSet l a b) c = if c = a then some b else lookup? l c := by
  rw [dictSet, lookup?_append, lookup?_filterNe]
  by_cases hca : c = a
  · simp [hca, lookup?]
  · have hac : ¬ a = c := fun h => hca h.symm
    simp [hca, lookup?, hac]
    cases lookup? l c <;> simp

theorem lookup?_dictPop {α β : Type} [DecidableEq α]
    (l : List (α × β)) (a c : α) :
    lookup? (dictPop l a) c = if c = a then none else lookup? l c := by
  rw [dictPop, lookup?_filterNe]


theorem storePres_rfl (x : NS) : storePres x x := fun _ h => h

theorem storePres_trans {x y z : NS} (h1 : storePres x y)
    (h2 : storePres y z) : storePres x z :=
  fun g h => h2 g (h1 g h)

theorem storePres_of_store_eq {x y : NS} (h : y.store = x.store) :
    storePres x y := by
  intro g hg
  rw [h]
  exact hg

theorem isSome_lookup?_dictSet {α β : Type} [DecidableEq α]
    (l : List (α × β)) (a c : α) (b : β) (h : (lookup? l c).isSome) :
    (lookup? (dictSet l a b) c).isSome := by
  rw [lookup?_dictSet]
  by_cases hca : c = a <;> simp [hca]
  exact h

theorem storePres_setTok (ns : NS) (g : Nat) (t : Token) :
    storePres ns (ns.setTok g t) := by
  intro g2 h
  exact isSome_lookup?_dictSet ns.store g g2 t h

theorem storePres_make_component (ns : NS) (path : QName)
    (file : Option String) : storePres ns (make_component ns path file).1 := by
  intro g h
  exact isSome_lookup?_dictSet ns.store ns.gid g _ h

theorem storePres_make_package (ns : NS) (path : QName) :
    storePres ns (make_package ns path).1 := by
  intro g h
  exact isSome_lookup?_dictSet ns.store ns.gid g _ h

theorem storePres_foldl {α : Type} (step : NS → α → NS)
    (h : ∀ ns a, storePres ns (step ns a)) :
    ∀ (l : List α) (ns : NS), storePres ns (l.foldl step ns) := by
  intro l
  induction l with
  | nil => intro ns; exact storePres_rfl ns
  | cons a rest ih =>
      intro ns
      exact storePres_trans (h ns a) (ih (step ns a))

theorem storePres_foldl_acc {α : Type} (step : NS × Bool → α → NS × Bool)
    (h : ∀ acc a, storePres acc.1 (step acc a).1) :
    ∀ (l : List α) (acc : NS × Bool), storePres acc.1 (l.foldl step acc).1 := by
  intro l
  induction l with
  | nil => intro acc; exact storePres_rfl acc.1
  | cons a rest ih =>
      intro acc
      exact storePres_trans (h acc a) (ih (step acc a))

theorem storePres_foldl_from {α : Type} (step : NS → α → NS)
    (h : ∀ ns a, storePres ns (step ns a)) (l : List α) (x seed : NS)
    (hseed : storePres x seed) : storePres x (l.foldl step seed) :=
  storePres_trans hseed (storePres_foldl step h l seed)

theorem storePres_parseDecl (ns : NS) (g : Nat) (d : Decl) :
    storePres ns (parseDecl ns g d) := by
  cases d with
  | cls cname methods =>
      simp only [parseDecl]
      refine storePres_foldl_from _ ?_ methods ns _ ?_
      · intro ns2 m
        refine storePres_trans ?_ (storePres_setTok _ _ _)
        intro g3 h
        exact isSome_lookup?_dictSet _ _ _ _ h
      · refine storePres_trans ?_ (storePres_setTok _ _ _)
        intro g2 h
        exact isSome_lookup?_dictSet _ _ _ _ h
  | func fname ps =>
      simp only [parseDecl]
      refine storePres_trans ?_ (storePres_setTok _ _ _)
      intro g2 h
      exact isSome_lookup?_dictSet _ _ _ _ h
  | other => exact storePres_rfl ns

theorem storePres_parse_file_content (ns : NS) (g : Nat) (ds : List Decl) :
    storePres ns (parse_file_content ns g ds) :=
  storePres_foldl _ (fun ns d => storePres_parseDecl ns g d) ds ns

theorem storePres_processFile (path : QName) (curGid : Nat)
    (acc : NS × Bool) (f : PyFile) :
    storePres acc.1 (processFile path curGid acc f).1 := by
  show storePres acc.1 _
  rw [processFile]
  by_cases hc : f.ext = "py" ∧ ¬ f.stem = "__init__"
  · simp only [hc, if_true]
    have h1 := storePres_make_component acc.1 path (some f.stem)
    have h2 := storePres_parse_file_content
      (make_component acc.1 path (some f.stem)).1
      (make_component acc.1 path (some f.stem)).2 f.decls
    set ns2 := parse_file_content (make_component acc.1 path (some f.stem)).1
      (make_component acc.1 path (some f.stem)).2 f.decls with hns2
    by_cases hcf : (ns2.getTok (make_component acc.1 path (some f.stem)).2).classes = [] ∧
        (ns2.getTok (make_component acc.1 path (some f.stem)).2).functions = []
    · simp only [hcf, if_true]
      exact storePres_trans (storePres_trans h1 h2)
        (storePres_of_store_eq rfl)
    · simp only [hcf, if_false]
      exact storePres_trans (storePres_trans h1 h2) (storePres_setTok _ _ _)
  · simp only [hc, if_false]
    exact storePres_rfl acc.1

theorem storePres_makeCurrent (ns : NS) (path : QName)
    (files : List PyFile) : storePres ns (makeCurrent ns path files).1 := by
  rw [makeCurrent]
  by_cases hi : hasInit files = true
  · simp only [hi, if_true]
    exact storePres_trans (storePres_make_component ns path none)
      (storePres_parse_file_content _ _ _)
  · simp only [hi, if_false]
    exact storePres_make_package ns path

theorem storePres_popIfChildless (acc : NS × Bool) (g : Nat) :
    storePres acc.1 (popIfChildless acc g) := by
  rw [popIfChildless]
  by_cases h : acc.2 = true
  · simp only [h, if_true]
    exact storePres_rfl _
  · simp only [h, if_false]
    exact storePres_of_store_eq rfl

theorem storePres_processSubdir (path : QName) (curGid : Nat)
    (acc : NS × Bool) (d : String) :
    storePres acc.1 (processSubdir path curGid acc d).1 := by
  rw [processSubdir]
  cases hl : lookup? acc.1.tokens (qual_name_from_path (path ++ [d]) none) with
  | none => exact storePres_rfl acc.1
  | some g =>
      simp only
      by_cases h1 : (acc.1.getTok g).kind = Kind.comp
      · simp only [h1, if_true]
        exact storePres_setTok _ _ _
      · simp only [h1, if_false]
        by_cases h2 : (acc.1.getTok g).kind = Kind.pkg
        · simp only [h2, if_true]
          exact storePres_setTok _ _ _
        · simp only [h2, if_false]
          exact storePres_rfl acc.1

theorem storePres_processDir (rootPath : QName) (ns : NS)
    (e : QName × List String × List PyFile) :
    storePres ns (processDir rootPath ns e) := by
  simp only [processDir]
  set r := makeCurrent ns e.1 e.2.2 with hr
  set acc1 := List.foldl (processFile e.1 r.2) (r.1, false) e.2.2 with hacc1
  set acc2 := List.foldl (processSubdir e.1 r.2) acc1 e.2.1 with hacc2
  set ns3 := popIfChildless acc2 r.2 with hns3
  have h1 : storePres ns r.1 := storePres_makeCurrent ns e.1 e.2.2
  have h2 : storePres r.1 acc1.1 := by
    rw [hacc1]
    exact storePres_foldl_acc _
      (fun acc f => storePres_processFile e.1 r.2 acc f) e.2.2 (r.1, false)
  have h3 : storePres acc1.1 acc2.1 := by
    rw [hacc2]
    exact storePres_foldl_acc _
      (fun acc d => storePres_processSubdir e.1 r.2 acc d) e.2.1 acc1
  have h4 : storePres acc2.1 ns3 := storePres_popIfChildless acc2 r.2
  have h5 : storePres ns ns3 :=
    storePres_trans (storePres_trans (storePres_trans h1 h2) h3) h4
  by_cases hroot : e.1 = rootPath
  · simp only [hroot, if_true]
    exact storePres_trans h5 (storePres_of_store_eq rfl)
  · simp only [hroot, if_false]
    exact h5

/-- Scanning a file whose table has no class or function children
changes nothing (`_parse_file_content` only reacts to those types). -/
theorem parse_file_content_of_no_class_func (ns : NS) (g : Nat)
    (ds : List Decl) (h : hasClassOrFunc ds = false) :
    parse_file_content ns g ds = ns := by
  induction ds generalizing ns with
  | nil => rfl
  | cons d rest ih =>
      cases d with
      | cls n m => simp [hasClassOrFunc] at h
      | func n p => simp [hasClassOrFunc] at h
      | other =>
          have hrest : hasClassOrFunc rest = false := by
            simpa [hasClassOrFunc] using h
          show parse_file_content (parseDecl ns g Decl.other) g rest = ns
          exact ih ns hrest

/-- C1 counterexample: after the namespace build on a root directory
`a` holding an empty `__init__.py` and a module `b.py` with one
function, the regular-package Component `a` has zero classes and zero
functions yet remains in the qualified-name lookup table (and is the
root of the final tree), contradicting the claim that every such
Component is removed from both tables and absent from the final tree. -/
theorem c1_pruning_counterexample :
    lookup? (buildNamespace fsRegularKept).tokens ["a"] = some 0 ∧
    ((buildNamespace fsRegularKept).getTok 0).kind = Kind.comp ∧
    ((buildNamespace fsRegularKept).getTok 0).classes = [] ∧
    ((buildNamespace fsRegularKept).getTok 0).functions = [] ∧
    (buildNamespace fsRegularKept).root_comp = some 0 := by decide

/-- C1 (amended): a Component created from a non-marker module file
with zero classes and zero functions is removed from the
qualified-name-to-token table immediately after its file is evaluated,
while its entry in the id-to-token table survives (the fresh component
object is still reachable by its id); a directory entity that gathered
no retained children is likewise popped from the qualified-name table
right after its directory is evaluated; and a whole directory step
never removes any entry from the id-to-token table. -/
theorem c1_pruning_amended :
    (∀ (ns : NS) (path : QName) (curGid : Nat) (hc : Bool) (f : PyFile),
       f.ext = "py" → ¬ f.stem = "__init__" →
       hasClassOrFunc f.decls = false →
       lookup? (processFile path curGid (ns, hc) f).1.tokens
         (path ++ [f.stem]) = none ∧
       lookup? (processFile path curGid (ns, hc) f).1.store ns.gid =
         some { gid := ns.gid, qual_name := path ++ [f.stem],
                kind := Kind.comp } ∧
       (processFile path curGid (ns, hc) f).2 = hc) ∧
    (∀ (acc : NS × Bool) (g : Nat), acc.2 = false →
       lookup? (popIfChildless acc g).tokens
         (acc.1.getTok g).qual_name = none) ∧
    (∀ (rootPath : QName) (ns : NS)
       (e : QName × List String × List PyFile) (g : Nat),
       (lookup? ns.store g).isSome →
       (lookup? (processDir rootPath ns e).store g).isSome) := by
  refine ⟨?_, ?_, ?_⟩
  · intro ns path curGid hc f hext hstem hnd
    have hcond : f.ext = "py" ∧ ¬ f.stem = "__init__" := ⟨hext, hstem⟩
    have hpf : parse_file_content
        (make_component ns path (some f.stem)).1
        (make_component ns path (some f.stem)).2 f.decls =
        (make_component ns path (some f.stem)).1 :=
      parse_file_content_of_no_class_func _ _ _ hnd
    simp only [processFile, hcond, if_true]
    simp only [hpf]
    have hcomp : ((make_component ns path (some f.stem)).1).getTok
        ((make_component ns path (some f.stem)).2) =
        { gid := ns.gid, qual_name := path ++ [f.stem], kind := Kind.comp } := by
      simp [make_component, NS.getTok, lookup?_dictSet, qual_name_from_path]
    simp only [hcomp]
    simp [make_component, qual_name_from_path, lookup?_dictPop,
      lookup?_dictSet]
  · intro acc g h
    rw [popIfChildless, if_neg (by simp [h]), lookup?_dictPop]
    simp
  · intro rootPath ns e g h
    exact storePres_processDir rootPath ns e g h

/-- Witness for C1 (amended): the empty module `a/b.py` is popped from
the qualified-name table; a childless directory token is popped; a
directory step keeps existing id-table entries. -/
theorem c1_pruning_amended_witness :
    (lookup? (processFile ["a"] 0 (initNS, false)
        { stem := "b", ext := "py", decls := [] }).1.tokens
        ["a", "b"] = none) ∧
    (lookup? (popIfChildless (nsSelfLoop, false) 0).tokens
        (nsSelfLoop.getTok 0).qual_name = none) ∧
    ((lookup? (processDir ["z"] nsSelfLoop (["z"], [], [])).store 0).isSome) := by
  refine ⟨?_, ?_, ?_⟩
  · exact (c1_pruning_amended.1 initNS ["a"] 0 false
      { stem := "b", ext := "py", decls := [] } rfl (by decide) rfl).1
  · exact c1_pruning_amended.2.1 (nsSelfLoop, false) 0 rfl
  · exact c1_pruning_amended.2.2 ["z"] nsSelfLoop (["z"], [], []) 0
      (by decide)

/-- C2: the containment-closure invariant the spec states fails on the
code.  Building the project whose root `r` holds a single regular
package `a` whose `__init__.py` declares class `C` prunes `r.a` (its
directory has no retained children) while keeping the class token
`r.a.C`, so the class's qualified name with its last segment stripped
names no token and `get_parent` raises `KeyError` on a retained
non-root token. -/
theorem c2_containment_closure_violated :
    lookup? (buildNamespace fsDanglingClass).tokens ["r", "a", "C"] = some 1 ∧
    ((buildNamespace fsDanglingClass).getTok 1).qual_name = ["r", "a", "C"] ∧
    lookup? (buildNamespace fsDanglingClass).tokens ["r", "a"] = none ∧
    (buildNamespace fsDanglingClass).get_parent
      ((buildNamespace fsDanglingClass).getTok 1) = Except.error () := by
  refine ⟨by decide, by decide, by decide, rfl⟩

/-- C3: running the export-concatenation scenario (module `other` with
`__all__ = ['Y']`, module `m` with `from .other import __all__ as
other_all` and `__all__ = ['X'] + other_all`) raises in the first
pass: `visit` returns `None` for the literal `['X']` operand, so the
flattened alias list contains `None` and `all_aliases[None]` raises
`KeyError`; the resolver never completes, let alone producing
`['X','Y']` after two iterations. -/
theorem c3_export_concatenation_crashes :
    exportScenarioRun = Except.error () := rfl

/-- C4 counterexample: looking name `x` up from module `a.sub.m`,
where `a.sub` is a namespace Package and the outer component `a`
declares `x`, returns `None`: reaching the Package ancestor terminates
the whole lookup instead of continuing to ascend to `a`. -/
theorem c4_package_stops_lookup_counterexample :
    find_in_token_hierarchy nsPkgStop (nsPkgStop.getTok 2) "x" =
      Except.ok none ∧
    (nsPkgStop.getTok 0).get_qualname_of_local_name "x" = some ["a", "x"] ∧
    lookup? nsPkgStop.tokens ["a", "x"] = some 3 := by
  refine ⟨rfl, by decide, by decide⟩

/-- A level satisfying `NoHitLevel` passes the walk on to the next
(outer) level unchanged. -/
theorem findAtLevels_skip (ns : NS) (name : String) (p : QName)
    (rest : List QName) (h : NoHitLevel ns name p) :
    findAtLevels ns name (p :: rest) = findAtLevels ns name rest := by
  by_cases hpe : p = []
  · simp [findAtLevels, hpe]
  · rcases h with h | ⟨g, hg, hk, hh⟩
    · exact absurd h hpe
    · rcases hh with hh | hh <;> simp [findAtLevels, hpe, hg, hk, hh]

/-- C4 (amended): the hierarchical lookup scans the qualified-name
prefixes innermost-first; across any run of no-hit levels, the first
level with a truthy declared/imported hit wins and the remaining outer
levels are not consulted; but as soon as a level's token is a
namespace `Package`, the whole lookup returns `None` immediately — the
remaining outer ancestors are not consulted either. -/
theorem c4_scope_lookup_amended :
    (∀ (ns : NS) (tok : Token) (name : String),
       find_in_token_hierarchy ns tok name =
         findAtLevels ns name (prefixesDesc tok.qual_name)) ∧
    (∀ (ns : NS) (name : String) (pre rest : List QName) (q : QName)
       (g : Nat),
       (∀ p ∈ pre, NoHitLevel ns name p) →
       ¬ q = [] → lookup? ns.tokens q = some g →
       (ns.getTok g).kind = Kind.pkg →
       findAtLevels ns name (pre ++ q :: rest) = Except.ok none) ∧
    (∀ (ns : NS) (name : String) (pre rest : List QName) (q qn : QName)
       (g g2 : Nat),
       (∀ p ∈ pre, NoHitLevel ns name p) →
       ¬ q = [] → lookup? ns.tokens q = some g →
       ¬ (ns.getTok g).kind = Kind.pkg →
       (ns.getTok g).get_qualname_of_local_name name = some qn →
       ¬ qn = [] → lookup? ns.tokens qn = some g2 →
       findAtLevels ns name (pre ++ q :: rest) =
         Except.ok (some (ns.getTok g2))) := by
  refine ⟨fun ns tok name => rfl, ?_, ?_⟩
  · intro ns name pre rest q g hpre hq hlook hpkg
    induction pre with
    | nil => simp [findAtLevels, hq, hlook, hpkg]
    | cons p ps ih =>
        have hskip := findAtLevels_skip ns name p (ps ++ q :: rest)
          (hpre p (by simp))
        rw [List.cons_append, hskip]
        exact ih (fun p hp => hpre p (by simp [hp]))
  · intro ns name pre rest q qn g g2 hpre hq hlook hpkg hhit hqn hlook2
    induction pre with
    | nil => simp [findAtLevels, hq, hlook, hpkg, hhit, hqn, hlook2]
    | cons p ps ih =>
        have hskip := findAtLevels_skip ns name p (ps ++ q :: rest)
          (hpre p (by simp))
        rw [List.cons_append, hskip]
        exact ih (fun p hp => hpre p (by simp [hp]))

/-- Witness for C4 (amended) on the concrete namespace: from module
`a.sub.m` the innermost level has no hit and the `a.sub` Package level
makes the lookup return `None` without consulting `a`. -/
theorem c4_scope_lookup_amended_witness :
    find_in_token_hierarchy nsPkgStop (nsPkgStop.getTok 2) "x" =
      findAtLevels nsPkgStop "x"
        (prefixesDesc (nsPkgStop.getTok 2).qual_name) ∧
    findAtLevels nsPkgStop "x"
      ([["a", "sub", "m"]] ++ ["a", "sub"] :: [["a"], []]) =
      Except.ok none := by
  constructor
  · exact c4_scope_lookup_amended.1 nsPkgStop (nsPkgStop.getTok 2) "x"
  · refine c4_scope_lookup_amended.2.1 nsPkgStop "x"
      [["a", "sub", "m"]] [["a"], []] ["a", "sub"] 1 ?_ (by decide)
      (by decide) (by decide)
    intro p hp
    simp only [List.mem_singleton] at hp
    subst hp
    exact Or.inr ⟨2, by decide, by decide, Or.inl (by decide)⟩

/-- C5: evaluating `from p import foo as bar` where `p.foo` is not a
declared entity but `foo` is in `p`'s resolved import table: the code
checks `alias.name in names` and then reads `names[name]` with the
local alias `bar`, raising `KeyError` instead of forwarding the
mapping under the alias — so an unresolvable situation does raise an
exception. -/
theorem c5_forwarding_alias_keyerror :
    importFromAlias nsForward 1 ["p"] "foo" (some "bar") =
      Except.error () := rfl

/-- C6: normalizing the purely relative import `from . import x`
(level 1, no submodule path) inside the package-marker file of
component `a.b` strips a level segment and yields `a`, although by the
claim (and the code's own comments) a single level of relativity in a
marker file refers to the component's directory `a.b` itself. -/
theorem c6_marker_relative_import_strips :
    build_qualified_from_name
      { gid := 0, qual_name := ["a", "b"], kind := Kind.comp,
        regular_pkg := true } none 1 = ["a"] ∧
    (["a"] : QName) ≠ ["a", "b"] := by
  refine ⟨by decide, by decide⟩

/-- C7 counterexample: condensing a namespace whose only fine-grained
relation is the recursive-call self-loop of function `m.f` on itself
attaches to component `m` a condensed relation whose source and
target are identical, contradicting the claim that no condensed
relation has identical source and target. -/
theorem c7_self_loop_counterexample :
    condense_relations 5 nsSelfLoop =
      Except.ok { nsSelfLoop with
        store := dictSet nsSelfLoop.store 0
          { gid := 0, qual_name := ["m"], kind := Kind.comp,
            relations := [{ src_id := 1, tgt_id := 1, weight := 0,
                            rtype := "uses", stereotype := none }] } } := rfl

/-- A non-increasing unresolved-count sequence must repeat between two
consecutive traversals no later than traversal `c 1 + 2`. -/
theorem cSeq_consecutive_repeat {S : Type} (f : S → S × Nat) (s0 : S)
    (hmono : ∀ n, 1 ≤ n → cSeq f s0 (n + 1) ≤ cSeq f s0 n) :
    ∃ k, 1 ≤ k ∧ k ≤ cSeq f s0 1 + 2 ∧ cSeq f s0 k = cSeq f s0 (k - 1) := by
  by_contra hno
  push_neg at hno
  have hstep : ∀ j, j + 1 ≤ cSeq f s0 1 + 2 →
      cSeq f s0 (j + 1) + j ≤ cSeq f s0 1 := by
    intro j
    induction j with
    | zero => intro _; simp
    | succ i ih =>
        intro hle
        have hlt : cSeq f s0 (i + 2) < cSeq f s0 (i + 1) := by
          have h1 := hmono (i + 1) (by omega)
          have h2 := hno (i + 2) (by omega) (by omega)
          simp only [show i + 1 + 1 = i + 2 from rfl] at h1
          simp only [show i + 2 - 1 = i + 1 from rfl] at h2
          omega
        have := ih (by omega)
        simp only [show i + 1 + 1 = i + 2 from rfl]
        omega
  have hbad := hstep (cSeq f s0 1 + 1) (by omega)
  omega

/-- General behaviour of the `IndeterministicParser.run` loop for an
exception-free traversal whose unresolved counts never increase: it
halts within `count-of-first-traversal + 2` traversals, exactly at the
first traversal whose count equals the previous one (the count before
the first traversal being 0). -/
theorem runLoop_halts_of_nonincreasing {S : Type} (f : S → S × Nat) (s0 : S)
    (hmono : ∀ n, 1 ≤ n → cSeq f s0 (n + 1) ≤ cSeq f s0 n) :
    ∃ k, 1 ≤ k ∧ k ≤ cSeq f s0 1 + 2 ∧
      cSeq f s0 k = cSeq f s0 (k - 1) ∧
      (∀ m, 1 ≤ m → m < k → ¬ cSeq f s0 m = cSeq f s0 (m - 1)) ∧
      ∀ fuel, k ≤ fuel →
        runLoop f fuel s0 0 = some (passState f s0 k, cSeq f s0 k) := by
  obtain ⟨k0, hk01, hk0le, hk0eq⟩ := cSeq_consecutive_repeat f s0 hmono
  have hex : ∃ k, 1 ≤ k ∧ cSeq f s0 k = cSeq f s0 (k - 1) := ⟨k0, hk01, hk0eq⟩
  classical
  let k := Nat.find hex
  have hkspec : 1 ≤ k ∧ cSeq f s0 k = cSeq f s0 (k - 1) := Nat.find_spec hex
  have hkmin : ∀ m, m < k → ¬ (1 ≤ m ∧ cSeq f s0 m = cSeq f s0 (m - 1)) :=
    fun m hm => Nat.find_min hex hm
  have hkle : k ≤ k0 := Nat.find_min' hex ⟨hk01, hk0eq⟩
  refine ⟨k, hkspec.1, le_trans hkle hk0le, hkspec.2, ?_, ?_⟩
  · intro m hm1 hmk hmeq
    exact hkmin m hmk ⟨hm1, hmeq⟩
  · have hrun : ∀ fuel n, n < k → k - n ≤ fuel →
        runLoop f fuel (passState f s0 n) (cSeq f s0 n) =
          some (passState f s0 k, cSeq f s0 k) := by
      intro fuel
      induction fuel with
      | zero => intro n hn hle; omega
      | succ m ih =>
          intro n hn hle
          show (if (f (passState f s0 n)).2 = cSeq f s0 n then
                  some (f (passState f s0 n))
                else runLoop f m (f (passState f s0 n)).1
                       (f (passState f s0 n)).2) = _
          have hc : (f (passState f s0 n)).2 = cSeq f s0 (n + 1) := rfl
          have hs : (f (passState f s0 n)).1 = passState f s0 (n + 1) := rfl
          by_cases heq : cSeq f s0 (n + 1) = cSeq f s0 n
          · have hkn : k ≤ n + 1 := by
              by_contra hlt
              push_neg at hlt
              exact hkmin (n + 1) hlt ⟨by omega, by
                simpa [Nat.add_sub_cancel] using heq⟩
            have hkeq : k = n + 1 := by omega
            rw [hc]
            simp only [heq, if_pos]
            have : f (passState f s0 n) =
                (passState f s0 (n + 1), cSeq f s0 (n + 1)) := by
              exact Prod.ext hs hc
            rw [this, hkeq]
          · rw [hc]
            simp only [heq, if_neg, not_false_iff]
            rw [hs]
            have hn1 : n + 1 < k := by
              rcases Nat.lt_or_ge (n + 1) k with h | h
              · exact h
              · have : k = n + 1 := by omega
                rw [this] at hkspec
                exact absurd (by simpa [Nat.add_sub_cancel] using hkspec.2)
                  heq
            exact ih (n + 1) hn1 (by omega)
    intro fuel hfuel
    have h0 : cSeq f s0 0 = 0 := rfl
    have hp0 : passState f s0 0 = s0 := rfl
    have := hrun fuel 0 (by omega) (by omega)
    rw [hp0, h0] at this
    exact this

/-- C8: the export resolver's iterate-until-stable loop does not, in
general, terminate by reaching a stable unresolved-node count: run on
the export-concatenation project (an acyclic reference graph of chain
length 2, the spec's own scenario), its very first traversal raises
`KeyError` and the loop aborts by exception, whatever the fuel allows,
instead of converging within the chain-length bound and stopping when
the count repeats. -/
theorem c8_export_resolver_loop_aborts :
    runLoopE (allParserPass exportProject) 5 nsExportScenario 0 =
      Except.error () := rfl

/-- C9: two `Relation` objects are equal — and hash equal — exactly
when they agree on source id, target id and weight, with kind and
stereotype ignored; consequently adding an edge to a set already
holding an edge with the same (source, target, weight) leaves the set
unchanged. -/
theorem c9_relation_equality (a b : Rel) (s : List Rel) :
    ((a.releq b = true ∧ a.relhash = b.relhash) ↔
      (a.src_id = b.src_id ∧ a.tgt_id = b.tgt_id ∧ a.weight = b.weight)) ∧
    (a ∈ s → a.releq b = true → setAdd s b = s) := by
  constructor
  · constructor
    · intro h
      have := h.1
      simpa [Rel.releq] using this
    · intro h
      refine ⟨by simpa [Rel.releq] using h, ?_⟩
      simp [Rel.relhash, h.1, h.2.1, h.2.2]
  · intro hmem heq
    have : s.any (fun x => x.releq b) = true := by
      rw [List.any_eq_true]
      exact ⟨a, hmem, heq⟩
    simp [setAdd, this]

/-- Witness for C9 at concrete relations: a `uses`/`calls` edge and a
`refines` edge between the same pair with the same weight are
equal-and-hash-equal, and inserting the second into a set holding the
first is a no-op. -/
theorem c9_relation_equality_witness :
    (({ src_id := 1, tgt_id := 2, weight := 0, rtype := "uses",
        stereotype := some "calls" } : Rel).releq
      { src_id := 1, tgt_id := 2, weight := 0, rtype := "refines",
        stereotype := none } = true ∧
     ({ src_id := 1, tgt_id := 2, weight := 0, rtype := "uses",
        stereotype := some "calls" } : Rel).relhash =
      ({ src_id := 1, tgt_id := 2, weight := 0, rtype := "refines",
         stereotype := none } : Rel).relhash) ∧
    setAdd [{ src_id := 1, tgt_id := 2, weight := 0, rtype := "uses",
              stereotype := some "calls" }]
      { src_id := 1, tgt_id := 2, weight := 0, rtype := "refines",
        stereotype := none } =
      [{ src_id := 1, tgt_id := 2, weight := 0, rtype := "uses",
         stereotype := some "calls" }] := by
  constructor
  · exact (c9_relation_equality
      { src_id := 1, tgt_id := 2, weight := 0, rtype := "uses",
        stereotype := some "calls" }
      { src_id := 1, tgt_id := 2, weight := 0, rtype := "refines",
        stereotype := none } []).1.mpr ⟨rfl, rfl, rfl⟩
  · exact (c9_relation_equality
      { src_id := 1, tgt_id := 2, weight := 0, rtype := "uses",
        stereotype := some "calls" }
      { src_id := 1, tgt_id := 2, weight := 0, rtype := "refines",
        stereotype := none }
      [{ src_id := 1, tgt_id := 2, weight := 0, rtype := "uses",
         stereotype := some "calls" }]).2 (by simp) (by decide)

/-- C10: for every token and every dotted name with three or more
segments, `get_token_of_local_name` returns `None` — only bare names
and exactly two-segment names are ever resolved. -/
theorem c10_three_segments_unresolved (ns : NS) (tok : Token)
    (name : List String) (h : 3 ≤ name.length) :
    get_token_of_local_name ns tok name = Except.ok none := by
  have h2 : 2 ≤ name.length := le_trans (by norm_num) h
  have hne : ¬ name.length = 2 := by omega
  simp [get_token_of_local_name, h2, hne]

/-- Witness for C10: the three-segment name `a.sub.x` resolves to
nothing from module `a.sub.m`. -/
theorem c10_three_segments_unresolved_witness :
    3 ≤ (["a", "sub", "x"] : List String).length ∧
    get_token_of_local_name nsPkgStop (nsPkgStop.getTok 2)
      ["a", "sub", "x"] = Except.ok none :=
  ⟨by decide,
   c10_three_segments_unresolved nsPkgStop (nsPkgStop.getTok 2)
     ["a", "sub", "x"] (by decide)⟩

theorem lookup?_mem {α β : Type} [DecidableEq α] {l : List (α × β)}
    {a : α} {b : β} (h : lookup? l a = some b) : (a, b) ∈ l := by
  induction l with
  | nil => simp [lookup?] at h
  | cons p rest ih =>
      by_cases hpa : p.1 = a
      · rw [lookup?, if_pos hpa] at h
        cases h
        rw [← hpa]
        simp
      · rw [lookup?, if_neg hpa] at h
        exact List.mem_cons_of_mem p (ih h)

theorem mem_setAdd_of_mem {s : List Rel} {r : Rel} (d : Rel)
    (h : r ∈ s) : r ∈ setAdd s d := by
  rw [setAdd]
  by_cases hc : s.any (fun x => x.releq d) = true
  · simpa [hc] using h
  · simp only [hc, if_false]
    exact List.mem_append_left _ h

theorem mem_setAdd {s : List Rel} {r d : Rel} (h : r ∈ setAdd s d) :
    r ∈ s ∨ r = d := by
  rw [setAdd] at h
  by_cases hc : s.any (fun x => x.releq d) = true
  · rw [if_pos hc] at h
    exact Or.inl h
  · rw [if_neg hc] at h
    rcases List.mem_append.mp h with h2 | h2
    · exact Or.inl h2
    · simp at h2
      exact Or.inr h2

theorem mem_unionRels {a b : List Rel} {r : Rel} (h : r ∈ unionRels a b) :
    r ∈ a ∨ r ∈ b := by
  rw [unionRels] at h
  induction b generalizing a with
  | nil => exact Or.inl h
  | cons x xs ih =>
      rcases ih (a := setAdd a x) h with h2 | h2
      · rcases mem_setAdd h2 with h3 | h3
        · exact Or.inl h3
        · exact Or.inr (by simp [h3])
      · exact Or.inr (List.mem_cons_of_mem x h2)

/-- Build `WF` from the decidable per-entry checks. -/
theorem WF_of_forall_mem {ns : NS}
    (h1 : ∀ p ∈ ns.store, (p.2 : Token).gid = p.1)
    (h2 : ∀ p ∈ ns.tokens,
      (lookup? ns.store p.2).map Token.qual_name = some p.1) : WF ns := by
  constructor
  · intro g t h
    exact h1 (g, t) (lookup?_mem h)
  · intro q g h
    have hm := h2 (q, g) (lookup?_mem h)
    cases hl : lookup? ns.store g with
    | none => rw [hl] at hm; simp at hm
    | some t =>
        rw [hl] at hm
        simp only [Option.map_some] at hm
        exact ⟨t, rfl, by injection hm⟩

/-- Analysis of `get_parent` on a token that is its own store entry,
in terms of `parentStep`. -/
theorem get_parent_cases {ns : NS} {s : Token} (hwf : WF ns)
    (hs : lookup? ns.store s.gid = some s) :
    (ns.get_parent s = Except.ok none ∧ parentStep ns s.gid = none) ∨
    (∃ p, ns.get_parent s = Except.ok (some p) ∧
       parentStep ns s.gid = some p.gid ∧
       lookup? ns.store p.gid = some p ∧
       p.qual_name = s.qual_name.dropLast) ∨
    (ns.get_parent s = Except.error ()) := by
  have hget : ns.getTok s.gid = s := by
    rw [NS.getTok, hs, Option.getD_some]
  by_cases hlen : s.qual_name.length < 2
  · left
    constructor
    · simp [NS.get_parent, hlen]
    · simp [parentStep, hget, hlen]
  · cases hl : lookup? ns.tokens s.qual_name.dropLast with
    | none =>
        right; right
        simp [NS.get_parent, hlen, hl]
    | some gp =>
        obtain ⟨p, hps, hpq⟩ := hwf.2 _ _ hl
        have hgid : p.gid = gp := hwf.1 _ _ hps
        have hgetp : ns.getTok gp = p := by
          rw [NS.getTok, hps, Option.getD_some]
        right; left
        refine ⟨p, ?_, ?_, ?_, hpq⟩
        · simp [NS.get_parent, hlen, hl, hgetp]
        · simp [parentStep, hget, hlen, hl, hgid]
        · rw [hgid]
          exact hps

theorem condenseStep_rfl (x : NS) (P : Rel → Prop) : condenseStep x x P := by
  refine ⟨rfl, rfl, fun r h => h, fun r h => Or.inl h, ?_, fun g h => h⟩
  intro g t h
  exact ⟨t, h, rfl, rfl, rfl, fun r hr => hr, fun r hr => Or.inl hr⟩

theorem condenseStep_mono {x y : NS} {P Q : Rel → Prop}
    (hPQ : ∀ r, P r → Q r) (h : condenseStep x y P) : condenseStep x y Q := by
  obtain ⟨h1, h2, h3, h4, h5, h6⟩ := h
  refine ⟨h1, h2, h3, fun r hr => (h4 r hr).imp id (hPQ r), ?_, h6⟩
  intro g t ht
  obtain ⟨t2, a1, a2, a3, a4, a5, a6⟩ := h5 g t ht
  exact ⟨t2, a1, a2, a3, a4, a5, fun r hr => (a6 r hr).imp id (hPQ r)⟩

theorem condenseStep_comp {x y z : NS} {P : Rel → Prop}
    (hxy : condenseStep x y P) (hyz : condenseStep y z P) :
    condenseStep x z P := by
  obtain ⟨a1, a2, a3, a4, a5, a6⟩ := hxy
  obtain ⟨b1, b2, b3, b4, b5, b6⟩ := hyz
  refine ⟨b1.trans a1, b2.trans a2, fun r h => b3 r (a3 r h), ?_, ?_,
    fun g h => a6 g (b6 g h)⟩
  · intro r h
    rcases b4 r h with h2 | h2
    · exact a4 r h2
    · exact Or.inr h2
  · intro g t ht
    obtain ⟨t2, c1, c2, c3, c4, c5, c6⟩ := a5 g t ht
    obtain ⟨t3, d1, d2, d3, d4, d5, d6⟩ := b5 g t2 c1
    refine ⟨t3, d1, d2.trans c2, d3.trans c3, d4.trans c4,
      fun r hr => d5 r (c5 r hr), ?_⟩
    intro r hr
    rcases d6 r hr with h2 | h2
    · exact c6 r h2
    · exact Or.inr h2

theorem getTok_qual_congr {x y : NS} {P : Rel → Prop}
    (h : condenseStep x y P) (g : Nat) :
    (y.getTok g).qual_name = (x.getTok g).qual_name := by
  cases hx : lookup? x.store g with
  | some t =>
      obtain ⟨t2, h1, _, h3, _⟩ := h.2.2.2.2.1 g t hx
      rw [NS.getTok, NS.getTok, hx, h1, Option.getD_some, Option.getD_some,
        h3]
  | none =>
      have hy : lookup? y.store g = none := by
        cases hy : lookup? y.store g with
        | none => rfl
        | some t2 =>
            have hi := h.2.2.2.2.2 g (by rw [hy]; rfl)
            rw [hx] at hi
            simp at hi
      rw [NS.getTok, NS.getTok, hx, hy]

theorem parentStep_congr {x y : NS} {P : Rel → Prop}
    (h : condenseStep x y P) (g : Nat) :
    parentStep y g = parentStep x g := by
  rw [parentStep, parentStep, getTok_qual_congr h g, h.1]

theorem parentIterN_congr {x y : NS} {P : Rel → Prop}
    (h : condenseStep x y P) (n : Nat) :
    ∀ g, parentIterN y n g = parentIterN x n g := by
  induction n with
  | zero => intro g; rfl
  | succ m ih =>
      intro g
      simp only [parentIterN]
      rw [parentStep_congr h g]
      cases parentStep x g with
      | none => rfl
      | some g2 => exact ih g2

theorem condensedFrom_congr {x y : NS} {P : Rel → Prop}
    (h : condenseStep x y P) (r0 r : Rel) (hc : condensedFrom y r0 r) :
    condensedFrom x r0 r := by
  obtain ⟨n, sg, tg, pg, h1, h2, h3, h4, h5, h6⟩ := hc
  exact ⟨n, sg, tg, pg, by rw [← parentIterN_congr h n]; exact h1,
    by rw [← parentIterN_congr h n]; exact h2, h3,
    by rw [← parentStep_congr h]; exact h4,
    by rw [← parentStep_congr h]; exact h5, h6⟩

/-- Effect of `addCondensed` when the shared parent is present in the
qualified-name table. -/
theorem addCondensed_spec {ns : NS} {src trgt sp : Token} {ns2 : NS}
    (hspstore : lookup? ns.store sp.gid = some sp)
    (hlooksp : lookup? ns.tokens sp.qual_name = some sp.gid)
    (hadd : addCondensed ns src trgt sp.qual_name = Except.ok ns2) :
    ns2.tokens = ns.tokens ∧
    ns2.associations = ns.associations ∧
    ns2.dependencies = setAdd ns.dependencies (mkUses src.gid trgt.gid) ∧
    ns2.store = dictSet ns.store sp.gid
      { sp with relations :=
          setAdd sp.relations (mkUses src.gid trgt.gid) } := by
  have hgetsp :
      ({ ns with
           dependencies :=
             setAdd ns.dependencies (mkUses src.gid trgt.gid) } :
         NS).getTok sp.gid = sp := by
    show (lookup? ns.store sp.gid).getD default = sp
    rw [hspstore, Option.getD_some]
  simp only [addCondensed, hlooksp, hgetsp] at hadd
  injection hadd with h2
  subst h2
  exact ⟨rfl, rfl, rfl, rfl⟩

/-- Specification of one `_bubble_relation` call: on success the state
changes by a `condenseStep` whose added relations all stem from the
two argument tokens by an equal number of parent steps, share a
parent, and have distinct endpoints unless the arguments coincide. -/
theorem bubble_spec (fuel : Nat) :
    ∀ (ns : NS) (src trgt : Token) (ns2 : NS),
      WF ns →
      lookup? ns.store src.gid = some src →
      lookup? ns.store trgt.gid = some trgt →
      bubble ns fuel src trgt = Except.ok ns2 →
      condenseStep ns ns2 (fun r => ∃ n sg tg pg,
        parentIterN ns n src.gid = some sg ∧
        parentIterN ns n trgt.gid = some tg ∧
        r = mkUses sg tg ∧
        parentStep ns sg = some pg ∧ parentStep ns tg = some pg ∧
        (¬ sg = tg ∨ src.gid = trgt.gid)) ∧ WF ns2 := by
  induction fuel with
  | zero =>
      intro ns src trgt ns2 hwf hs ht hb
      simp [bubble] at hb
  | succ m ih =>
      intro ns src trgt ns2 hwf hs ht hb
      rcases get_parent_cases hwf hs with ⟨hgs, hpss⟩ |
        ⟨sp, hgs, hpss, hspstore, hspq⟩ | hgs
      · -- src has no parent: the relation is dropped, state unchanged
        rcases get_parent_cases hwf ht with ⟨hgt, _⟩ |
          ⟨tp, hgt, _, _, _⟩ | hgt
        · simp only [bubble, hgs, hgt] at hb
          cases hb
          exact ⟨condenseStep_rfl ns _, hwf⟩
        · simp only [bubble, hgs, hgt] at hb
          cases hb
          exact ⟨condenseStep_rfl ns _, hwf⟩
        · simp only [bubble, hgs, hgt] at hb
          exact absurd hb (by simp)
      · -- src has parent sp
        rcases get_parent_cases hwf ht with ⟨hgt, _⟩ |
          ⟨tp, hgt, hpst, htpstore, htpq⟩ | hgt
        · simp only [bubble, hgs, hgt] at hb
          cases hb
          exact ⟨condenseStep_rfl ns _, hwf⟩
        · -- both parents exist
          have hgetsrc : ns.getTok src.gid = src := by
            rw [NS.getTok, hs, Option.getD_some]
          have hgettrgt : ns.getTok trgt.gid = trgt := by
            rw [NS.getTok, ht, Option.getD_some]
          simp only [bubble, hgs, hgt] at hb
          by_cases hq : sp.qual_name = tp.qual_name
          · -- shared parent: one dependency is created
            rw [if_pos hq] at hb
            have hlooksp : lookup? ns.tokens sp.qual_name = some sp.gid := by
              by_cases hlen : (ns.getTok src.gid).qual_name.length < 2
              · rw [parentStep, if_pos hlen] at hpss
                cases hpss
              · rw [parentStep, if_neg hlen, hgetsrc] at hpss
                rw [hspq]
                exact hpss
            have hlooktp : lookup? ns.tokens tp.qual_name = some tp.gid := by
              by_cases hlen : (ns.getTok trgt.gid).qual_name.length < 2
              · rw [parentStep, if_pos hlen] at hpst
                cases hpst
              · rw [parentStep, if_neg hlen, hgettrgt] at hpst
                rw [htpq]
                exact hpst
            have hgideq : tp.gid = sp.gid := by
              have h3 := hlooktp
              rw [← hq, hlooksp] at h3
              injection h3 with h4
              exact h4.symm
            obtain ⟨heqtok, heqassoc, heqdeps, heqstore⟩ :=
              addCondensed_spec hspstore hlooksp hb
            set nt : Token :=
              { sp with
                  relations :=
                    setAdd sp.relations (mkUses src.gid trgt.gid) }
              with hnt
            have hPdep : ∃ n sg tg pg,
                parentIterN ns n src.gid = some sg ∧
                parentIterN ns n trgt.gid = some tg ∧
                mkUses src.gid trgt.gid = mkUses sg tg ∧
                parentStep ns sg = some pg ∧ parentStep ns tg = some pg ∧
                (¬ sg = tg ∨ src.gid = trgt.gid) := by
              refine ⟨0, src.gid, trgt.gid, sp.gid, rfl, rfl, rfl, hpss,
                ?_, ?_⟩
              · rw [hpst, hgideq]
              · by_cases hd : src.gid = trgt.gid
                · exact Or.inr hd
                · exact Or.inl hd
            constructor
            · refine ⟨heqtok, heqassoc, ?_, ?_, ?_, ?_⟩
              · intro r hr
                rw [heqdeps]
                exact mem_setAdd_of_mem (mkUses src.gid trgt.gid) hr
              · intro r hr
                rw [heqdeps] at hr
                rcases mem_setAdd hr with h2 | h2
                · exact Or.inl h2
                · rw [h2]
                  exact Or.inr hPdep
              · intro g2 told hstore2
                rw [heqstore, lookup?_dictSet]
                by_cases hgsp : g2 = sp.gid
                · have hteq : told = sp := by
                    rw [hgsp] at hstore2
                    rw [hstore2] at hspstore
                    injection hspstore
                  rw [if_pos hgsp, hteq]
                  refine ⟨nt, rfl, rfl, rfl, rfl, ?_, ?_⟩
                  · intro r hr
                    exact mem_setAdd_of_mem (mkUses src.gid trgt.gid) hr
                  · intro r hr
                    rcases mem_setAdd hr with h2 | h2
                    · exact Or.inl h2
                    · rw [h2]
                      exact Or.inr hPdep
                · rw [if_neg hgsp]
                  exact ⟨told, hstore2, rfl, rfl, rfl, fun r hr => hr,
                    fun r hr => Or.inl hr⟩
              · intro g2 hg2
                rw [heqstore, lookup?_dictSet] at hg2
                by_cases hgsp : g2 = sp.gid
                · rw [hgsp, hspstore]
                  rfl
                · rw [if_neg hgsp] at hg2
                  exact hg2
            · refine ⟨?_, ?_⟩
              · intro g2 told hstore2
                rw [heqstore, lookup?_dictSet] at hstore2
                by_cases hgsp : g2 = sp.gid
                · rw [if_pos hgsp] at hstore2
                  injection hstore2 with h2
                  rw [← h2, hgsp]
                · rw [if_neg hgsp] at hstore2
                  exact hwf.1 g2 told hstore2
              · intro q2 g2 hq2
                rw [heqtok] at hq2
                obtain ⟨told, hts, htq⟩ := hwf.2 q2 g2 hq2
                by_cases hgsp : g2 = sp.gid
                · have hteq : told = sp := by
                    rw [hgsp] at hts
                    rw [hts] at hspstore
                    injection hspstore
                  refine ⟨nt, ?_, ?_⟩
                  · rw [heqstore, lookup?_dictSet, if_pos hgsp]
                  · rw [← htq, hteq]
                · refine ⟨told, ?_, htq⟩
                  rw [heqstore, lookup?_dictSet, if_neg hgsp]
                  exact hts
          · -- different parents: recurse on them
            rw [if_neg hq] at hb
            have hgidne : ¬ sp.gid = tp.gid := by
              intro he
              rw [he] at hspstore
              rw [hspstore] at htpstore
              injection htpstore with h2
              rw [h2] at hq
              exact hq rfl
            obtain ⟨hcs, hwf2⟩ := ih ns sp tp ns2 hwf hspstore htpstore hb
            refine ⟨condenseStep_mono ?_ hcs, hwf2⟩
            intro r hr
            obtain ⟨n, sg, tg, pg, i1, i2, hr3, p1, p2, hd⟩ := hr
            refine ⟨n + 1, sg, tg, pg, ?_, ?_, hr3, p1, p2, ?_⟩
            · show (match parentStep ns src.gid with
                | some g2 => parentIterN ns n g2
                | none => none) = some sg
              rw [hpss]
              exact i1
            · show (match parentStep ns trgt.gid with
                | some g2 => parentIterN ns n g2
                | none => none) = some tg
              rw [hpst]
              exact i2
            · rcases hd with hd | hd
              · exact Or.inl hd
              · exact absurd hd hgidne
        · simp only [bubble, hgs, hgt] at hb
          exact absurd hb (by simp)
      · simp only [bubble, hgs] at hb
        exact absurd hb (by simp)

/-- Specification of the `condense_relations` loop over a snapshot
list of relations. -/
theorem condenseGo_spec (fuel : Nat) :
    ∀ (rels : List Rel) (ns ns2 : NS),
      WF ns →
      condenseGo fuel rels ns = Except.ok ns2 →
      condenseStep ns ns2 (fun r => ∃ r0 ∈ rels, condensedFrom ns r0 r) ∧
      WF ns2 := by
  intro rels
  induction rels with
  | nil =>
      intro ns ns2 hwf hc
      simp only [condenseGo] at hc
      cases hc
      exact ⟨condenseStep_rfl ns _, hwf⟩
  | cons r rest ih =>
      intro ns ns2 hwf hc
      simp only [condenseGo] at hc
      cases hsrc : lookup? ns.store r.src_id with
      | none =>
          simp only [hsrc] at hc
          exact absurd hc (by simp)
      | some s =>
          cases htgt : lookup? ns.store r.tgt_id with
          | none =>
              simp only [hsrc, htgt] at hc
              exact absurd hc (by simp)
          | some t =>
              simp only [hsrc, htgt] at hc
              cases hbub : bubble ns fuel s t with
              | error e =>
                  simp only [hbub] at hc
                  exact absurd hc (by simp)
              | ok nsMid =>
                  simp only [hbub] at hc
                  have hsg : s.gid = r.src_id := hwf.1 _ _ hsrc
                  have htg : t.gid = r.tgt_id := hwf.1 _ _ htgt
                  have hsrc2 : lookup? ns.store s.gid = some s := by
                    rw [hsg]; exact hsrc
                  have htgt2 : lookup? ns.store t.gid = some t := by
                    rw [htg]; exact htgt
                  obtain ⟨hcs1, hwf1⟩ :=
                    bubble_spec fuel ns s t nsMid hwf hsrc2 htgt2 hbub
                  obtain ⟨hcs2, hwf2⟩ := ih nsMid ns2 hwf1 hc
                  have hcs1g : condenseStep ns nsMid
                      (fun r2 => ∃ r0 ∈ r :: rest, condensedFrom ns r0 r2) := by
                    refine condenseStep_mono ?_ hcs1
                    intro r2 h
                    obtain ⟨n, sg, tg, pg, a1, a2, a3, a4, a5, a6⟩ := h
                    refine ⟨r, by simp, n, sg, tg, pg, ?_, ?_, a3, a4, a5, ?_⟩
                    · rw [← hsg]; exact a1
                    · rw [← htg]; exact a2
                    · rw [← hsg, ← htg]; exact a6
                  have hcs2g : condenseStep nsMid ns2
                      (fun r2 => ∃ r0 ∈ r :: rest, condensedFrom ns r0 r2) := by
                    refine condenseStep_mono ?_ hcs2
                    intro r2 h
                    obtain ⟨r0, hr0, hcf⟩ := h
                    exact ⟨r0, List.mem_cons_of_mem r hr0,
                      condensedFrom_congr hcs1 r0 r2 hcf⟩
                  exact ⟨condenseStep_comp hcs1g hcs2g, hwf2⟩

/-- C7 (amended): for a well-formed state, condensing (a) never
mutates or removes any original fine-grained edge, any association, or
any token's already-attached relations; (b) every dependency and every
token-attached relation it adds stems, by an equal number of parent
steps on both sides, from a pre-existing fine-grained relation of the
iterated snapshot whose ascended endpoints share a parent, and has
identical source and target only if that original relation is itself a
self-loop; and (c) when an endpoint of a bubbled pair has no parent,
the edge is dropped without error and the state is unchanged. -/
theorem c7_condense_amended :
    (∀ (fuel : Nat) (ns ns2 : NS), WF ns →
       condense_relations fuel ns = Except.ok ns2 →
       ns2.tokens = ns.tokens ∧
       ns2.associations = ns.associations ∧
       (∀ r ∈ ns.dependencies, r ∈ ns2.dependencies) ∧
       (∀ g t, lookup? ns.store g = some t → ∃ t2,
          lookup? ns2.store g = some t2 ∧ t2.gid = t.gid ∧
          t2.qual_name = t.qual_name ∧ t2.kind = t.kind ∧
          ∀ r ∈ t.relations, r ∈ t2.relations) ∧
       (∀ r ∈ ns2.dependencies, r ∈ ns.dependencies ∨
          ∃ r0, (r0 ∈ ns.dependencies ∨ r0 ∈ ns.associations) ∧
            condensedFrom ns r0 r) ∧
       (∀ g t t2 r, lookup? ns.store g = some t →
          lookup? ns2.store g = some t2 → r ∈ t2.relations →
          r ∈ t.relations ∨
          ∃ r0, (r0 ∈ ns.dependencies ∨ r0 ∈ ns.associations) ∧
            condensedFrom ns r0 r)) ∧
    (∀ (fuel : Nat) (ns : NS) (src trgt : Token),
       ns.get_parent src = Except.ok none →
       (∃ o, ns.get_parent trgt = Except.ok o) →
       bubble ns (fuel + 1) src trgt = Except.ok ns) ∧
    (∀ (fuel : Nat) (ns : NS) (src trgt p : Token),
       ns.get_parent src = Except.ok (some p) →
       ns.get_parent trgt = Except.ok none →
       bubble ns (fuel + 1) src trgt = Except.ok ns) := by
  refine ⟨?_, ?_, ?_⟩
  · intro fuel ns ns2 hwf hcond
    rw [condense_relations] at hcond
    obtain ⟨hcs, _⟩ := condenseGo_spec fuel
      (unionRels ns.dependencies ns.associations) ns ns2 hwf hcond
    obtain ⟨h1, h2, h3, h4, h5, h6⟩ := hcs
    refine ⟨h1, h2, h3, ?_, ?_, ?_⟩
    · intro g t ht2
      obtain ⟨t2, a1, a2, a3, a4, a5, _⟩ := h5 g t ht2
      exact ⟨t2, a1, a2, a3, a4, a5⟩
    · intro r2 hr2
      rcases h4 r2 hr2 with h | h
      · exact Or.inl h
      · obtain ⟨r0, hr0, hcf⟩ := h
        exact Or.inr ⟨r0, mem_unionRels hr0, hcf⟩
    · intro g t t2 r2 ht2 ht22 hrmem
      obtain ⟨t2b, a1, a2, a3, a4, a5, a6⟩ := h5 g t ht2
      have hbeq : t2b = t2 := by
        rw [a1] at ht22
        injection ht22
      rcases a6 r2 (by rw [hbeq]; exact hrmem) with h | h
      · exact Or.inl h
      · obtain ⟨r0, hr0, hcf⟩ := h
        exact Or.inr ⟨r0, mem_unionRels hr0, hcf⟩
  · intro fuel ns src trgt hsrc ho
    obtain ⟨o, ho⟩ := ho
    cases o with
    | none => simp only [bubble, hsrc, ho]
    | some p => simp only [bubble, hsrc, ho]
  · intro fuel ns src trgt p hsrc htrgt
    simp only [bubble, hsrc, htrgt]

/-- Witness for C7 (amended) on the self-loop namespace, whose
condensation succeeds, and for the root-drop conjuncts on the root
token `m`. -/
theorem c7_condense_amended_witness :
    (nsSelfLoopCondensed.tokens = nsSelfLoop.tokens ∧
     nsSelfLoopCondensed.associations = nsSelfLoop.associations) ∧
    bubble nsSelfLoop 1 (nsSelfLoop.getTok 0) (nsSelfLoop.getTok 0) =
      Except.ok nsSelfLoop := by
  constructor
  · have h := (c7_condense_amended.1 5 nsSelfLoop nsSelfLoopCondensed
      (WF_of_forall_mem (by decide) (by decide)) rfl)
    exact ⟨h.1, h.2.1⟩
  · exact c7_condense_amended.2.1 0 nsSelfLoop (nsSelfLoop.getTok 0)
      (nsSelfLoop.getTok 0) rfl ⟨none, rfl⟩

end PyParser
